import Mathlib

/-! # Verification of the myShell parsing-and-execution core

Shallow embedding of the C sources `src/parser.c`, `src/executor.c` and
`src/myshell.c` (tokenizer, pipeline splitter, command builder and process
orchestrator), with theorems settling the specification claims.

File-system and process effects are made explicit: `open` succeeds or fails
according to an oracle, allocated file descriptors are tracked in an `FdState`,
and the observable actions of a run (forks, reports, file opens, waits) are
recorded as an event list.
-/

deriving instance DecidableEq for Except

/-- Open modes used by the shell: `O_RDONLY`, `O_WRONLY|O_CREAT|O_TRUNC`,
`O_WRONLY|O_CREAT|O_APPEND`. -/
inductive Mode
  | read
  | writeTrunc
  | append
  deriving DecidableEq, Repr

/-- The error conditions reported by the parser and builder
(`myshell: syntax error: ...` and file-open diagnostics). -/
inductive ShellErr
  | missingCommand
  | missingCommandAfterPipe
  | missingRedirectTarget
  | tooManyPipes
  | ioErr (f : String)
  deriving DecidableEq, Repr

/-- The `Command` structure of `executor.h`: argument vector plus the three
optional redirection file descriptors (`-1` in C becomes `none`). -/
structure Command where
  args : List String
  input_fd : Option Nat
  output_fd : Option Nat
  error_fd : Option Nat
  deriving DecidableEq, Repr

/-- Process-wide file-descriptor state: the next descriptor the kernel will
hand out, and the list of descriptors currently open. -/
structure FdState where
  nextFd : Nat
  openFds : List Nat
  deriving DecidableEq, Repr

/-- Where a standard stream of a child ends up bound. -/
inductive Sink
  | inherit
  | pipeRd (i : Nat)
  | pipeWr (i : Nat)
  | file (fd : Nat)
  deriving DecidableEq, Repr

/-- The three standard streams. -/
inductive Std3
  | stdin
  | stdout
  | stderr
  deriving DecidableEq, Repr

/-- The bindings of a child's three standard streams. -/
structure Streams where
  sIn : Sink
  sOut : Sink
  sErr : Sink
  deriving DecidableEq, Repr

/-- Observable events of a run: forks, diagnostics, file opens, process
bookkeeping. -/
inductive Ev
  | fork (i : Nat)
  | report (e : ShellErr)
  | reportForkFail
  | reportPipeFail
  | openFile (f : String) (m : Mode)
  | childRun (i : Nat) (streams : Streams) (args : List String)
  | exec (args : List String)
  | reportExecFail (prog : String)
  | childExit
  | waitEv (i : Nat)
  | builtin
  deriving DecidableEq, Repr

/-- Environment oracles: whether `open`, `pipe`, `fork` and `execvp` succeed. -/
structure Env where
  openOk : String → Mode → Bool
  pipeOk : Nat → Bool
  forkOk : Nat → Bool
  execOk : List String → Bool

/-! ## Tokenizer (`parse_input`, parser.c lines 61-154) -/

/-- The whitespace set of C's `isspace` (the `TOKEN_DELIM` scanning uses
`isspace` directly). -/
def cSpace (c : Char) : Bool :=
  c = ' ' || c = '\t' || c = '\n' || c = '\x0b' || c = '\x0c' || c = '\r'

/-- The inner token scan of `parse_input`: walks characters, toggling quote
mode on `"` and `'` (the quote characters are deleted, matching the `memmove`
in the C code), and stops at the first unquoted whitespace character, which is
consumed.  Returns the token text and the remaining input. -/
def scanToken : List Char → Bool → Char → List Char → List Char × List Char
  | [], _, _, acc => (acc.reverse, [])
  | c :: rest, inq, qc, acc =>
    if c = '"' ∨ c = '\'' then
      if !inq then scanToken rest true c acc
      else if c = qc then scanToken rest false qc acc
      else scanToken rest inq qc (c :: acc)
    else if !inq && cSpace c then (acc.reverse, rest)
    else scanToken rest inq qc (c :: acc)

/-- The main loop of `parse_input`: skip whitespace, scan one token, emit it
when non-empty, skip trailing whitespace, and — exactly as the C code does
after every finished token — check whether the next two characters are `>>`
and, if so, emit them as a single `>>` token. -/
def tokLoop (l : List Char) : List (List Char) :=
  match h : l.dropWhile cSpace with
  | [] => []
  | c :: rest =>
    let p := scanToken (c :: rest) false ' ' []
    let emitted : List (List Char) := if p.1.isEmpty then [] else [p.1]
    let r1 := p.2.dropWhile cSpace
    if r1.head? = some '>' ∧ r1.tail.head? = some '>' then
      emitted ++ ['>', '>'] :: tokLoop r1.tail.tail
    else
      emitted ++ tokLoop r1
termination_by l.length
decreasing_by
  all_goals
    (have hdrop : ∀ (p : Char → Bool) (m : List Char),
        (m.dropWhile p).length ≤ m.length := by
      intro p m
      induction m with
      | nil => simp [List.dropWhile]
      | cons a as ih =>
        rw [List.dropWhile]
        split
        · exact Nat.le_succ_of_le ih
        · simp
     have hscan : ∀ (m : List Char) (inq : Bool) (qc : Char) (acc : List Char),
        (scanToken m inq qc acc).2.length ≤ m.length := by
      intro m
      induction m with
      | nil => intro inq qc acc; simp [scanToken]
      | cons x xs ih =>
        intro inq qc acc
        simp only [scanToken]
        split
        · split
          · exact Nat.le_succ_of_le (ih _ _ _)
          · split
            · exact Nat.le_succ_of_le (ih _ _ _)
            · exact Nat.le_succ_of_le (ih _ _ _)
        · split
          · exact Nat.le_succ _
          · exact Nat.le_succ_of_le (ih _ _ _)
     have hcons : (scanToken (c :: rest) false ' ' []).2.length ≤ rest.length := by
      simp only [scanToken]
      split
      · split
        · exact hscan _ _ _ _
        · split
          · exact hscan _ _ _ _
          · exact hscan _ _ _ _
      · split
        · exact Nat.le_refl _
        · exact hscan _ _ _ _
     have htail : ∀ (m : List Char), m.tail.length ≤ m.length := by
      intro m; cases m <;> simp
     have hlen : rest.length + 1 ≤ l.length := by
      have h2 := hdrop cSpace l
      rw [h] at h2
      simpa using h2
     have hdw : ((scanToken (c :: rest) false ' ' []).2.dropWhile cSpace).length
        ≤ rest.length := le_trans (hdrop _ _) hcons
     have hlt : rest.length < l.length := Nat.lt_of_lt_of_le (Nat.lt_succ_self _) hlen
     first
     | exact Nat.lt_of_le_of_lt (le_trans (htail _) (le_trans (htail _) hdw)) hlt
     | exact Nat.lt_of_le_of_lt hdw hlt)

/-- Function `parse_input`: tokenize a raw line. -/
def parse_input (s : String) : List String :=
  (tokLoop s.data).map (fun cs => String.mk cs)

/-! ## Pipeline splitter (`split_pipeline`, parser.c lines 286-376) -/

/-- The scanning loop of `split_pipeline`.  `cur` is the segment being
accumulated since the last `|` (the tokens between `start` and `i` in the C
code) and `acc` the completed segments.  On a `|`: an empty current segment is
`missing command`; a `|` as last token is `missing command after pipe`; after
pushing a segment the count is checked against `max_cmds = 10`
(`*cmd_count >= max_cmds` → `too many pipes`).  At the end of input an empty
trailing segment (`start >= i`) is `missing command`. -/
def splitAux : List String → List String → List (List String) →
    Except ShellErr (List (List String))
  | [], cur, acc =>
    if cur.isEmpty then .error .missingCommand
    else .ok (acc ++ [cur])
  | t :: rest, cur, acc =>
    if t = "|" then
      if cur.isEmpty then .error .missingCommand
      else if rest.isEmpty then .error .missingCommandAfterPipe
      else if acc.length + 1 ≥ 10 then .error .tooManyPipes
      else splitAux rest [] (acc ++ [cur])
    else splitAux rest (cur ++ [t]) acc

/-- Function `split_pipeline`: split a token sequence into pipeline segments. -/
def split_pipeline (tokens : List String) : Except ShellErr (List (List String)) :=
  splitAux tokens [] []

/-- Spec-side description of reassembling a pipeline: the segments in order
with one `|` token between consecutive segments. -/
def joinSegs : List (List String) → List String
  | [] => []
  | [s] => s
  | s :: ss => s ++ "|" :: joinSegs ss

/-- A list of completed segments, each followed by a `|`, in front of a
remainder of the token sequence. -/
def preJoin : List (List String) → List String → List String
  | [], r => r
  | s :: ss, r => s ++ "|" :: preJoin ss r

/-! ## Command builder (`parse_command`, parser.c lines 187-272) -/

/-- The redirection operators recognised by `parse_command` (note: `>>` is
*not* among them in the C code). -/
def isOp (t : String) : Bool :=
  t == "<" || t == ">" || t == "2>"

/-- First pass of `parse_command`: counts the non-redirection tokens,
erroring with `missing file for redirection` when a redirection operator is
the last token of the segment (`i + 1 >= end`).  Redirection operators skip
their following filename operand. -/
def countArgs : List String → Except ShellErr Nat
  | [] => .ok 0
  | [t] =>
    if isOp t then .error .missingRedirectTarget
    else .ok 1
  | t :: u :: rest =>
    if isOp t then countArgs rest
    else
      match countArgs (u :: rest) with
      | .error e => .error e
      | .ok n => .ok (n + 1)

/-- Model of `open(2)` against the oracle: a successful open allocates the next file
descriptor and records it as open; a failed open leaves the state unchanged. -/
def openF (ok : String → Mode → Bool) (f : String) (m : Mode) (st : FdState) :
    Option Nat × FdState :=
  if ok f m then (some st.nextFd, ⟨st.nextFd + 1, st.openFds ++ [st.nextFd]⟩)
  else (none, st)

/-- Second pass of `parse_command`: walks the segment again, opening the
redirection targets (`<` read-only, `>` and `2>` create-and-truncate) and
collecting the remaining tokens as arguments.  On an open failure the C code
frees `cmd->args` and `cmd` and returns `NULL` — it does *not* close file
descriptors opened earlier in the same call, which is why the returned
`FdState` keeps them open on the error paths. -/
def phase2 (ok : String → Mode → Bool) :
    List String → FdState → Command → Except ShellErr Command × FdState × List Ev
  | [], st, cmd => (.ok cmd, st, [])
  | [t], st, cmd =>
    if isOp t then (.error (.ioErr t), st, [.report (.ioErr t)])
    else (.ok { cmd with args := cmd.args ++ [t] }, st, [])
  | t :: u :: rest, st, cmd =>
    if t = "<" then
      match openF ok u .read st with
      | (some fd, st') =>
        let r := phase2 ok rest st' { cmd with input_fd := some fd }
        (r.1, r.2.1, .openFile u .read :: r.2.2)
      | (none, st') => (.error (.ioErr u), st', [.report (.ioErr u)])
    else if t = ">" then
      match openF ok u .writeTrunc st with
      | (some fd, st') =>
        let r := phase2 ok rest st' { cmd with output_fd := some fd }
        (r.1, r.2.1, .openFile u .writeTrunc :: r.2.2)
      | (none, st') => (.error (.ioErr u), st', [.report (.ioErr u)])
    else if t = "2>" then
      match openF ok u .writeTrunc st with
      | (some fd, st') =>
        let r := phase2 ok rest st' { cmd with error_fd := some fd }
        (r.1, r.2.1, .openFile u .writeTrunc :: r.2.2)
      | (none, st') => (.error (.ioErr u), st', [.report (.ioErr u)])
    else
      let r := phase2 ok (u :: rest) st { cmd with args := cmd.args ++ [t] }
      (r.1, r.2.1, r.2.2)

/-- Function `parse_command`: build a `Command` from one segment.  The C code first
counts arguments (erroring on a dangling redirection operator and on a
segment with no command word), then walks the segment opening redirection
targets and copying arguments. -/
def parse_command (ok : String → Mode → Bool) (seg : List String) (st : FdState) :
    Except ShellErr Command × FdState × List Ev :=
  match countArgs seg with
  | .error e => (.error e, st, [.report e])
  | .ok 0 => (.error .missingCommand, st, [.report .missingCommand])
  | .ok (_ + 1) => phase2 ok seg st ⟨[], none, none, none⟩

/-- Spec-side filter from C4's wording: the segment with every redirection
operator and its filename operand removed. -/
def removeRedirs : List String → List String
  | [] => []
  | [t] => if isOp t then [] else [t]
  | t :: u :: rest =>
    if isOp t then removeRedirs rest
    else t :: removeRedirs (u :: rest)

/-- Spec-side predicate: some redirection operator in scan position lacks its
filename operand (it is the last token of the segment). -/
def hasDangling : List String → Bool
  | [] => false
  | [t] => isOp t
  | t :: u :: rest =>
    if isOp t then hasDangling rest
    else hasDangling (u :: rest)

/-! ## Child-side redirection (`setup_redirection`, executor.c lines 444-546)

Runs inside the forked child of a simple (pipe-free) command.  It scans the
raw token list, opens each redirection target (`>` and `2>` truncate, `>>`
appends, `<` reads), `dup2`s it onto the stream and drops the operator and
filename from the argument vector.  Unlike `parse_command` it *does* handle
`>>`, and it checks for a missing operand only when it reaches the operator —
after already having opened any earlier targets. -/

def setup_redirection (ok : String → Mode → Bool) :
    List String → Option (List String) × List Ev
  | [] => (some [], [])
  | [t] =>
    if t = ">" ∨ t = "2>" ∨ t = "<" ∨ t = ">>" then
      (none, [.report .missingRedirectTarget])
    else (some [t], [])
  | t :: u :: rest =>
    if t = ">" then
      if ok u .writeTrunc then
        let r := setup_redirection ok rest
        (r.1, .openFile u .writeTrunc :: r.2)
      else (none, [.report (.ioErr u)])
    else if t = "2>" then
      if ok u .writeTrunc then
        let r := setup_redirection ok rest
        (r.1, .openFile u .writeTrunc :: r.2)
      else (none, [.report (.ioErr u)])
    else if t = "<" then
      if ok u .read then
        let r := setup_redirection ok rest
        (r.1, .openFile u .read :: r.2)
      else (none, [.report (.ioErr u)])
    else if t = ">>" then
      if ok u .append then
        let r := setup_redirection ok rest
        (r.1, .openFile u .append :: r.2)
      else (none, [.report (.ioErr u)])
    else
      let r := setup_redirection ok (u :: rest)
      (r.1.map (fun l => t :: l), r.2)

/-! ## Simple command execution (`execute_command`, executor.c lines 560-592) -/

/-- Function `execute_command`: fork once; the child runs `setup_redirection` on the
raw tokens and then `execvp`s the filtered argument vector (reporting and
exiting non-zero when either fails); the parent waits.  The decisive ordering
fact: the fork happens *before* the child examines the redirections. -/
def execute_command (env : Env) (tokens : List String) : List Ev :=
  if env.forkOk 0 then
    let s := setup_redirection env.openOk tokens
    let childEvs :=
      match s.1 with
      | none => s.2 ++ [.childExit]
      | some newArgs =>
        if env.execOk newArgs then s.2 ++ [.exec newArgs]
        else s.2 ++ [.reportExecFail (newArgs.headD ""), .childExit]
    .fork 0 :: childEvs ++ [.waitEv 0]
  else [.reportForkFail]

/-! ## Pipeline execution (`execute_pipeline`, executor.c lines 611-679) -/

/-- Model of `dup2(src, d)`: rebind one standard stream. -/
def applyDup2 (s : Streams) (src : Sink) (d : Std3) : Streams :=
  match d with
  | .stdin => { s with sIn := src }
  | .stdout => { s with sOut := src }
  | .stderr => { s with sErr := src }

/-- The stream wiring performed by child `i` of an `n`-stage pipeline, in the
order of the C code: pipe read end onto stdin (if not first), pipe write end
onto stdout (if not last), close every pipe descriptor (which does not unbind
the streams), and only then `dup2` the per-command redirection descriptors —
so a redirection present in the `Command` overrides the pipe wiring. -/
def childWiring (i n : Nat) (c : Command) : Streams :=
  let s0 : Streams := ⟨.inherit, .inherit, .inherit⟩
  let s1 := if 0 < i then applyDup2 s0 (.pipeRd (i - 1)) .stdin else s0
  let s2 := if i < n - 1 then applyDup2 s1 (.pipeWr i) .stdout else s1
  let s3 := match c.input_fd with
    | some fd => applyDup2 s2 (.file fd) .stdin
    | none => s2
  let s4 := match c.output_fd with
    | some fd => applyDup2 s3 (.file fd) .stdout
    | none => s3
  match c.error_fd with
  | some fd => applyDup2 s4 (.file fd) .stderr
  | none => s4

/-- Outcome of `execute_pipeline` as observed by the parent: the event list,
the pipe descriptors still open in the parent on return, and which children
were spawned and waited on. -/
structure PipeRes where
  events : List Ev
  openPipes : List Sink
  spawned : List Nat
  waited : List Nat
  deriving DecidableEq, Repr

/-- Both ends of pipes `0 .. k-1`. -/
def pipeFdsUpTo (k : Nat) : List Sink :=
  (List.range k).flatMap (fun i => [Sink.pipeRd i, Sink.pipeWr i])

/-- Index of the first failing `pipe(2)` call among the `m` creations, if
any (the C loop aborts at the first failure). -/
def firstPipeFail (po : Nat → Bool) (m : Nat) : Option Nat :=
  (List.range m).find? (fun i => !po i)

/-- The spawn loop of `execute_pipeline`: fork each command in index order.
On a fork failure the C code just `return`s: no further children are spawned,
but the already-created pipes stay open in the parent and *no* child is
waited on.  When all forks succeed the parent closes every pipe descriptor
and waits on all `n` children. -/
def spawnLoop (env : Env) (n : Nat) :
    List (Nat × Command) → List Nat → List Ev → PipeRes
  | [], spawned, evs =>
    { events := evs ++ (List.range n).map Ev.waitEv
      openPipes := []
      spawned := spawned
      waited := List.range n }
  | (i, c) :: rest, spawned, evs =>
    if env.forkOk i then
      spawnLoop env n rest (spawned ++ [i])
        (evs ++ [.fork i, .childRun i (childWiring i n c) c.args])
    else
      { events := evs ++ [.reportForkFail]
        openPipes := pipeFdsUpTo (n - 1)
        spawned := spawned
        waited := [] }

/-- Function `execute_pipeline`: create the `n-1` pipes (aborting — without closing
the pipes already created — at the first failure), then spawn and wait. -/
def execute_pipeline (env : Env) (cmds : List Command) : PipeRes :=
  let n := cmds.length
  match firstPipeFail env.pipeOk (n - 1) with
  | some k =>
    { events := [.reportPipeFail]
      openPipes := pipeFdsUpTo k
      spawned := []
      waited := [] }
  | none => spawnLoop env n cmds.enum [] []

/-! ## Driving a line (`execute_line`, myshell.c lines 76-166) -/

/-- Close a command's redirection descriptors (the cleanup loop of
`execute_line`). -/
def closeCmdFds (c : Command) (st : FdState) : FdState :=
  let rm : Option Nat → List Nat → List Nat := fun o l =>
    match o with
    | some fd => l.filter (fun x => x ≠ fd)
    | none => l
  ⟨st.nextFd, rm c.error_fd (rm c.output_fd (rm c.input_fd st.openFds))⟩

/-- Build the `Command` records for a pipeline, as the loop in `execute_line`
does: `parse_command` on each segment in order; at the first failure, close
the descriptors of the *previously built* commands (the failing call's own
descriptors were leaked inside `parse_command`) and stop. -/
def buildCmds (ok : String → Mode → Bool) :
    List (List String) → FdState → List Command →
    Option (List Command) × FdState × List Ev
  | [], st, built => (some built, st, [])
  | seg :: rest, st, built =>
    match parse_command ok seg st with
    | (.ok cmd, st1, evs) =>
      let r := buildCmds ok rest st1 (built ++ [cmd])
      (r.1, r.2.1, evs ++ r.2.2)
    | (.error _, st1, evs) =>
      (none, built.foldl (fun s c => closeCmdFds c s) st1, evs)

/-- Function `execute_line` for an already-tokenized line: builtins are dispatched
first; then `split_pipeline`; a single segment goes through
`execute_command` on the raw tokens, while a genuine pipeline builds all
`Command`s and only then calls `execute_pipeline`. -/
def execute_line (env : Env) (tokens : List String) : List Ev :=
  match tokens with
  | [] => []
  | t0 :: _ =>
    if t0 = "cd" ∨ t0 = "exit" then [.builtin]
    else
      match split_pipeline tokens with
      | .error e => [.report e]
      | .ok segs =>
        if segs.length = 1 then execute_command env tokens
        else
          let b := buildCmds env.openOk segs ⟨0, []⟩ []
          match b.1 with
          | none => b.2.2
          | some cmds => b.2.2 ++ (execute_pipeline env cmds).events

/-! ## Concrete fixtures used by the witnesses and counterexamples -/

/-- Environment in which every system call succeeds. -/
def envAll : Env := ⟨fun _ _ => true, fun _ => true, fun _ => true, fun _ => true⟩

/-- Environment for the simple-command runs: opens and forks succeed, the
final `execvp` fails (as it does for an empty argument vector). -/
def envSimple : Env := ⟨fun _ _ => true, fun _ => true, fun _ => true, fun _ => false⟩

/-- Open oracle under which `in.txt` opens and every other target fails. -/
def okInOnly : String → Mode → Bool := fun f _ => f == "in.txt"

/-- Environment in which creating the second pipe (`pipes[1]`) fails. -/
def envPipeFail : Env := ⟨fun _ _ => true, fun i => i == 0, fun _ => true, fun _ => true⟩

/-- Environment in which the second `fork` (child index 1) fails. -/
def envForkFail : Env := ⟨fun _ _ => true, fun _ => true, fun i => i == 0, fun _ => true⟩

/-- A plain one-word command record with no redirections. -/
def plainCmd (s : String) : Command := ⟨[s], none, none, none⟩

/-- A token sequence with exactly 10 `|` operators separating 11 non-empty
commands. -/
def tokensTenPipes : List String :=
  ["c0", "|", "c1", "|", "c2", "|", "c3", "|", "c4", "|", "c5", "|", "c6", "|",
   "c7", "|", "c8", "|", "c9", "|", "c10"]

/-- A token sequence with exactly 9 `|` operators separating 10 non-empty
commands. -/
def tokensNinePipes : List String :=
  ["c0", "|", "c1", "|", "c2", "|", "c3", "|", "c4", "|", "c5", "|", "c6", "|",
   "c7", "|", "c8", "|", "c9"]

/-! # Claim theorems -/

/-- C1 (code bug): the spec demands that when building a `Command` fails
after a redirection target was already opened, every descriptor opened during
that `parse_command` call is closed before the error is returned.  Evaluating
the embedded `parse_command` on the segment `cat < in.txt > out.txt` — where
`in.txt` opens (as descriptor 0) and the open of `out.txt` fails — shows the
call returning the error with `openFds = [0]`: the descriptor for `in.txt`
is still open, so the failure path leaks it (parser.c frees `cmd->args` and
`cmd` on this path but never closes `cmd->input_fd`). -/
theorem c1_fd_leak_eval :
    parse_command okInOnly ["cat", "<", "in.txt", ">", "out.txt"] ⟨0, []⟩ =
      (.error (.ioErr "out.txt"), ⟨1, [0]⟩,
        [.openFile "in.txt" .read, .report (.ioErr "out.txt")]) := by
  decide

/-- C2 (code bug): the spec and the comment in `split_pipeline` itself
(`max_cmds = 10; // Maximum 10 pipes (11 commands)`) promise that up to 10
pipe operators (11 commands) are accepted.  But the check
`(*cmd_count)++; if (*cmd_count >= max_cmds)` fires when the 10th pipe
completes the 10th segment, so a line with exactly 10 pipes and 11 non-empty
commands is rejected with `too many pipes`, while 9 pipes (10 commands) is
the real maximum accepted. -/
theorem c2_pipe_limit_eval :
    split_pipeline tokensTenPipes = .error .tooManyPipes ∧
    split_pipeline tokensNinePipes =
      .ok [["c0"], ["c1"], ["c2"], ["c3"], ["c4"], ["c5"], ["c6"], ["c7"],
           ["c8"], ["c9"]] := by
  decide

/-- C3 (code bug): the spec (and parser.c's own header comment, which lists
`>>` among the parsed redirection operators) says the Command Builder opens
the token after `>>` in append mode and excludes both tokens from the
argument vector.  Evaluating `parse_command` on the segment
`echo hi >> out.txt` shows it treats `>>` and `out.txt` as ordinary
arguments: nothing is opened, `output_fd` stays unset, and both tokens stay
in `args`.  Only the child-side `setup_redirection` of the no-pipe path
implements the claimed behaviour (second conjunct). -/
theorem c3_append_divergence_eval :
    parse_command (fun _ _ => true) ["echo", "hi", ">>", "out.txt"] ⟨0, []⟩ =
      (.ok ⟨["echo", "hi", ">>", "out.txt"], none, none, none⟩, ⟨0, []⟩, []) ∧
    setup_redirection (fun _ _ => true) ["echo", "hi", ">>", "out.txt"] =
      (some ["echo", "hi"], [.openFile "out.txt" .append]) := by
  decide

/-- C6 (code bug): the spec requires that a mid-loop pipe-creation failure
closes the pipes already created, and that a mid-loop fork failure still
waits on every already-spawned child.  Evaluating `execute_pipeline`:
with the second pipe failing, the function returns with both ends of pipe 0
still open and nothing waited; with the second fork failing, child 0 was
spawned but the function returns without waiting on it (a zombie) and with
both ends of pipe 0 still open — in each case the C code just `return`s. -/
theorem c6_cleanup_eval :
    (execute_pipeline envPipeFail [plainCmd "a", plainCmd "b", plainCmd "c"]).openPipes =
      [.pipeRd 0, .pipeWr 0] ∧
    (execute_pipeline envPipeFail [plainCmd "a", plainCmd "b", plainCmd "c"]).waited = [] ∧
    (execute_pipeline envForkFail [plainCmd "a", plainCmd "b"]).spawned = [0] ∧
    (execute_pipeline envForkFail [plainCmd "a", plainCmd "b"]).waited = [] ∧
    (execute_pipeline envForkFail [plainCmd "a", plainCmd "b"]).openPipes =
      [.pipeRd 0, .pipeWr 0] := by
  decide

/-- C4 counterexample: the claim says a segment that is only redirections,
such as `[>, out.txt]`, fails with `missing command` and creates no file.
On the simple-command path (one segment) the shell instead forks and the
child's `setup_redirection` opens — creating/truncating — `out.txt` before
anything notices the empty command, and no `missing command` diagnostic is
ever produced. -/
theorem c4_counterexample :
    Ev.openFile "out.txt" .writeTrunc ∈ execute_line envSimple [">", "out.txt"] ∧
    Ev.report .missingCommand ∉ execute_line envSimple [">", "out.txt"] := by
  decide

/-- C5 counterexample: the claim says every line with a syntax error is
rejected before any fork.  On the line `ls >` (trailing redirection, a
`MissingRedirectTarget` syntax error) the shell takes the simple-command
path: it forks first and the error is detected and reported inside the
child, as the evaluated event trace shows — `fork` precedes the report. -/
theorem c5_counterexample :
    execute_line envSimple ["ls", ">"] =
      [.fork 0, .report .missingRedirectTarget, .childExit, .waitEv 0] := by
  decide

/-- C7 counterexample: the claim says every token sequence whose last token
is `|` fails with `MissingCommandAfterPipe`.  The sequence `["|"]` ends in
`|`, yet the code reports `missing command` (the empty-segment-before-pipe
check runs first), so the claimed error kind is wrong for this input. -/
theorem c7_counterexample :
    ["|"].getLast? = some "|" ∧
    split_pipeline ["|"] = .error .missingCommand := by
  decide

/-- Induction principle matching the two-token scanning shape shared by
`countArgs`, `removeRedirs` and `hasDangling`. -/
theorem twoStepInduction {α : Type} {P : List α → Prop} (h0 : P [])
    (h1 : ∀ t, P [t])
    (h2 : ∀ t u rest, P rest → P (u :: rest) → P (t :: u :: rest)) :
    ∀ l, P l := by
  have key : ∀ l, P l ∧ ∀ t, P (t :: l) := by
    intro l
    induction l with
    | nil => exact ⟨h0, h1⟩
    | cons u rest ih => exact ⟨ih.2 u, fun t => h2 t u rest ih.1 (ih.2 u)⟩
  exact fun l => (key l).1

/-- The first pass of `parse_command` agrees with the spec-side filter: when
no redirection operator dangles, the counted arguments are exactly the tokens
left after removing operators and operands. -/
theorem countArgs_of_spec (seg : List String) (h : hasDangling seg = false) :
    countArgs seg = .ok (removeRedirs seg).length := by
  revert h
  induction seg using twoStepInduction with
  | h0 => intro _; rfl
  | h1 t =>
    intro h
    simp only [hasDangling] at h
    simp [countArgs, removeRedirs, h]
  | h2 t u rest ih1 ih2 =>
    intro h
    by_cases hop : isOp t
    · simp only [hasDangling, if_pos hop] at h
      simp [countArgs, removeRedirs, hop, ih1 h]
    · simp only [hasDangling, if_neg hop] at h
      simp [countArgs, removeRedirs, hop, ih2 h]

/-- C4 (amended): on the pipeline path, `parse_command` does satisfy the
claim — a segment whose argument vector is empty after removing the
redirection operators it recognises (`<`, `>`, `2>`) and their operands, and
which has no dangling operator, fails with `missing command` with the
file-descriptor state unchanged: no redirection target is opened, created or
truncated.  (The simple-command path violates the original claim, see the
counterexample: there the child creates the file before the empty command is
noticed.) -/
theorem c4_amended (ok : String → Mode → Bool) (st : FdState) (seg : List String)
    (h1 : removeRedirs seg = []) (h2 : hasDangling seg = false) :
    parse_command ok seg st = (.error .missingCommand, st, [.report .missingCommand]) := by
  have hc := countArgs_of_spec seg h2
  rw [h1] at hc
  simp [parse_command, hc]

/-- Witness for C4's amended theorem at the segment `[>, out.txt]`. -/
theorem c4_amended_witness :
    parse_command (fun _ _ => true) [">", "out.txt"] ⟨0, []⟩ =
      (.error .missingCommand, ⟨0, []⟩, [.report .missingCommand]) :=
  c4_amended (fun _ _ => true) ⟨0, []⟩ [">", "out.txt"] (by decide) (by decide)

/-- The builder's second pass never forks: its events are opens and
reports only. -/
theorem phase2_no_fork (ok : String → Mode → Bool) :
    ∀ (l : List String) (st : FdState) (cmd : Command) (i : Nat),
      Ev.fork i ∉ (phase2 ok l st cmd).2.2 := by
  intro l
  induction l using twoStepInduction with
  | h0 => intro st cmd i; simp [phase2]
  | h1 t =>
    intro st cmd i
    by_cases h : isOp t <;> simp [phase2, h]
  | h2 t u rest ih1 ih2 =>
    intro st cmd i
    simp only [phase2]
    split_ifs with hin hout herr
    · rcases hop : openF ok u .read st with ⟨fd, st'⟩
      cases fd with
      | none => simp [hop]
      | some fd =>
        simp only [hop, List.mem_cons]
        push_neg
        exact ⟨by simp, ih1 _ _ _⟩
    · rcases hop : openF ok u .writeTrunc st with ⟨fd, st'⟩
      cases fd with
      | none => simp [hop]
      | some fd =>
        simp only [hop, List.mem_cons]
        push_neg
        exact ⟨by simp, ih1 _ _ _⟩
    · rcases hop : openF ok u .writeTrunc st with ⟨fd, st'⟩
      cases fd with
      | none => simp [hop]
      | some fd =>
        simp only [hop, List.mem_cons]
        push_neg
        exact ⟨by simp, ih1 _ _ _⟩
    · exact ih2 _ _ _

/-- Function `parse_command` never forks. -/
theorem parse_command_no_fork (ok : String → Mode → Bool) (seg : List String)
    (st : FdState) (i : Nat) : Ev.fork i ∉ (parse_command ok seg st).2.2 := by
  unfold parse_command
  rcases h : countArgs seg with e | n
  · simp
  · cases n with
    | zero => simp
    | succ n => exact phase2_no_fork ok seg st _ i

/-- Building the pipeline's `Command` records never forks. -/
theorem buildCmds_no_fork (ok : String → Mode → Bool) :
    ∀ (segs : List (List String)) (st : FdState) (built : List Command) (i : Nat),
      Ev.fork i ∉ (buildCmds ok segs st built).2.2 := by
  intro segs
  induction segs with
  | nil => intro st built i; simp [buildCmds]
  | cons seg rest ih =>
    intro st built i
    have hpc := parse_command_no_fork ok seg st i
    simp only [buildCmds]
    rcases hp : parse_command ok seg st with ⟨r, st1, evs⟩
    rw [hp] at hpc
    cases r with
    | ok cmd =>
      simp only [List.mem_append, not_or]
      exact ⟨hpc, ih _ _ _⟩
    | error e => exact hpc

/-- C5 (amended): the pre-fork guarantee holds for the two checks that run in
the parent.  First conjunct: any error from `split_pipeline` (missing
command, missing command after pipe, too many pipes) makes `execute_line`
return after the report without ever forking.  Second conjunct: on the
pipeline path (more than one segment), a failure while building the
`Command` records also means no fork at all.  (On the simple-command path
the original claim fails: redirection syntax errors are found by the child
after the fork — see the counterexample.) -/
theorem c5_amended :
    (∀ (env : Env) (ts : List String) (e : ShellErr) (i : Nat),
        split_pipeline ts = .error e → Ev.fork i ∉ execute_line env ts) ∧
    (∀ (env : Env) (ts : List String) (segs : List (List String)) (i : Nat),
        split_pipeline ts = .ok segs → segs.length ≠ 1 →
        (buildCmds env.openOk segs ⟨0, []⟩ []).1 = none →
        Ev.fork i ∉ execute_line env ts) := by
  constructor
  · intro env ts e i h
    cases ts with
    | nil => simp [execute_line]
    | cons t0 rest =>
      simp only [execute_line]
      split_ifs with hb
      · simp
      · simp [h]
  · intro env ts segs i h hlen hb
    cases ts with
    | nil => simp [execute_line]
    | cons t0 rest =>
      simp only [execute_line]
      split_ifs with hbt
      · simp
      · have hnf := buildCmds_no_fork env.openOk segs ⟨0, []⟩ [] i
        rcases hbb : buildCmds env.openOk segs ⟨0, []⟩ [] with ⟨ob, st1, evs⟩
        rw [hbb] at hnf
        rw [hbb] at hb
        simp only [h, if_neg hlen, hbb]
        simp only at hb
        rw [hb]
        exact hnf

/-- Witness for C5's amended theorem: no fork on the split-rejected line `|`
and none on the pipeline line `< | x` whose first segment fails to build. -/
theorem c5_amended_witness :
    Ev.fork 0 ∉ execute_line envSimple ["|"] ∧
    Ev.fork 0 ∉ execute_line envSimple ["<", "|", "x"] :=
  ⟨c5_amended.1 envSimple ["|"] .missingCommand 0 (by decide),
   c5_amended.2 envSimple ["<", "|", "x"] [["<"], ["x"]] 0 (by decide) (by decide)
     (by decide)⟩

/-- Walking one non-empty pipe-free segment up to its following `|` advances
the splitter to the remainder, with the segment pushed, provided there is
input after the `|` and the segment count stays below the cap. -/
theorem splitAux_walk :
    ∀ (seg cur rest : List String) (acc : List (List String)),
      "|" ∉ seg → cur ++ seg ≠ [] → rest ≠ [] → acc.length + 1 < 10 →
      splitAux (seg ++ "|" :: rest) cur acc = splitAux rest [] (acc ++ [cur ++ seg]) := by
  intro seg
  induction seg with
  | nil =>
    intro cur rest acc _ hcur hrest hcnt
    rw [List.append_nil] at hcur ⊢
    simp only [List.nil_append, splitAux]
    simp only [if_true]
    rw [if_neg (by simpa [List.isEmpty_iff] using hcur),
        if_neg (by simpa [List.isEmpty_iff] using hrest),
        if_neg (by omega)]
  | cons t seg ih =>
    intro cur rest acc hseg hcur hrest hcnt
    have ht : t ≠ "|" := fun h => hseg (h ▸ List.mem_cons_self t seg)
    have hseg' : "|" ∉ seg := fun h => hseg (List.mem_cons_of_mem t h)
    simp only [List.cons_append, splitAux]
    rw [if_neg ht]
    have := ih (cur ++ [t]) rest acc hseg' (by simp) hrest hcnt
    simpa [List.append_assoc] using this

/-- Application of `preJoin` to a non-empty remainder is non-empty. -/
theorem preJoin_ne_nil (pre : List (List String)) (r : List String) (hr : r ≠ []) :
    preJoin pre r ≠ [] := by
  cases pre with
  | nil => simpa [preJoin] using hr
  | cons s ss => simp [preJoin]

/-- Consuming a run of non-empty pipe-free segments, each followed by `|`,
pushes them all, provided the count stays below the cap. -/
theorem splitAux_preJoin :
    ∀ (pre : List (List String)) (rest : List String) (acc : List (List String)),
      (∀ s ∈ pre, s ≠ [] ∧ "|" ∉ s) → rest ≠ [] → acc.length + pre.length < 10 →
      splitAux (preJoin pre rest) [] acc = splitAux rest [] (acc ++ pre) := by
  intro pre
  induction pre with
  | nil => intro rest acc _ _ _; simp [preJoin]
  | cons s ss ih =>
    intro rest acc hpre hrest hcnt
    have hs := hpre s (List.mem_cons_self s ss)
    have hss : ∀ x ∈ ss, x ≠ [] ∧ "|" ∉ x := fun x hx => hpre x (List.mem_cons_of_mem s hx)
    simp only [preJoin]
    rw [splitAux_walk s [] (preJoin ss rest) acc hs.2 (by simpa using hs.1)
      (preJoin_ne_nil ss rest hrest) (by simp at hcnt; omega)]
    rw [List.nil_append]
    rw [ih rest (acc ++ [s]) hss hrest (by simp at hcnt ⊢; omega)]
    simp

/-- A trailing `|` preceded by a non-empty pipe-free segment always reports
`missing command after pipe` (this check precedes the pipe-count check). -/
theorem splitAux_lastPipe :
    ∀ (seg cur : List String) (acc : List (List String)),
      "|" ∉ seg → cur ++ seg ≠ [] →
      splitAux (seg ++ ["|"]) cur acc = .error .missingCommandAfterPipe := by
  intro seg
  induction seg with
  | nil =>
    intro cur acc _ hcur
    rw [List.append_nil] at hcur
    simp only [List.nil_append, splitAux]
    simp only [if_true]
    rw [if_neg (by simpa [List.isEmpty_iff] using hcur)]
    simp
  | cons t seg ih =>
    intro cur acc hseg hcur
    have ht : t ≠ "|" := fun h => hseg (h ▸ List.mem_cons_self t seg)
    have hseg' : "|" ∉ seg := fun h => hseg (List.mem_cons_of_mem t h)
    simp only [List.cons_append, splitAux]
    rw [if_neg ht]
    exact ih (cur ++ [t]) acc hseg' (by simp)

/-- C7 (amended): the splitter's error kinds, with the first violated rule in
scan order winning and the pipe cap bounding how far scanning gets.  With at
most 9 completed segments in front: an empty segment before a `|` yields
`missing command`; a final `|` whose preceding segment is non-empty yields
`missing command after pipe`.  The trailing-empty-segment `missing command`
of the C code arises only for an empty token sequence — any other trailing
emptiness is already caught as `missing command after pipe`, contrary to the
original claim's third part (and a leading or doubled `|` that is also the
last token reports `missing command`, not `missing command after pipe`,
contrary to its second part — see the counterexample). -/
theorem c7_amended :
    (∀ (pre : List (List String)) (ts : List String),
        (∀ s ∈ pre, s ≠ [] ∧ "|" ∉ s) → pre.length ≤ 9 →
        split_pipeline (preJoin pre ("|" :: ts)) = .error .missingCommand) ∧
    (∀ (pre : List (List String)) (seg : List String),
        (∀ s ∈ pre, s ≠ [] ∧ "|" ∉ s) → pre.length ≤ 9 → seg ≠ [] → "|" ∉ seg →
        split_pipeline (preJoin pre (seg ++ ["|"])) = .error .missingCommandAfterPipe) ∧
    split_pipeline ([] : List String) = .error .missingCommand := by
  refine ⟨?_, ?_, rfl⟩
  · intro pre ts hpre hlen
    unfold split_pipeline
    rw [splitAux_preJoin pre ("|" :: ts) [] hpre (by simp) (by simp; omega)]
    simp [splitAux]
  · intro pre seg hpre hlen hseg hpipe
    unfold split_pipeline
    rw [splitAux_preJoin pre (seg ++ ["|"]) [] hpre (by simp) (by simp; omega)]
    exact splitAux_lastPipe seg [] pre hpipe (by simpa using hseg)

/-- Witness for C7's amended theorem: `a | |` is `missing command`, and
`a | b |` is `missing command after pipe`. -/
theorem c7_amended_witness :
    split_pipeline (preJoin [["a"]] ("|" :: [])) = .error .missingCommand ∧
    split_pipeline (preJoin [["a"]] (["b"] ++ ["|"])) = .error .missingCommandAfterPipe :=
  ⟨c7_amended.1 [["a"]] [] (by decide) (by decide),
   c7_amended.2.1 [["a"]] ["b"] (by decide) (by decide) (by decide) (by decide)⟩

/-- Reassembling completed segments plus a final one. -/
theorem joinSegs_snoc : ∀ (acc : List (List String)) (c : List String),
    joinSegs (acc ++ [c]) = preJoin acc c := by
  intro acc
  induction acc with
  | nil => intro c; simp [joinSegs, preJoin]
  | cons s ss ih =>
    intro c
    cases ss with
    | nil => simp [joinSegs, preJoin]
    | cons s2 ss2 =>
      have hih := ih c
      simp only [List.cons_append, List.append_eq, joinSegs, preJoin] at hih ⊢
      rw [hih]

/-- Moving a completed segment from the accumulator into the remainder. -/
theorem preJoin_snoc : ∀ (acc : List (List String)) (c : List String) (r : List String),
    preJoin (acc ++ [c]) r = preJoin acc (c ++ "|" :: r) := by
  intro acc
  induction acc with
  | nil => intro c r; simp [preJoin]
  | cons s ss ih => intro c r; simp [preJoin, ih]

/-- Soundness invariant of the splitting loop: a successful run returns the
accumulated segments — all non-empty and pipe-free (given that invariant for
the inputs) — and they reassemble, `|`-separated, to exactly the input. -/
theorem splitAux_ok_spec :
    ∀ (rest cur : List String) (acc segs : List (List String)),
      (∀ s ∈ acc, s ≠ [] ∧ "|" ∉ s) → "|" ∉ cur →
      splitAux rest cur acc = .ok segs →
      (∀ s ∈ segs, s ≠ [] ∧ "|" ∉ s) ∧ joinSegs segs = preJoin acc (cur ++ rest) := by
  intro rest
  induction rest with
  | nil =>
    intro cur acc segs hacc hcur h
    simp only [splitAux] at h
    split at h
    · exact absurd h (by simp)
    · rename_i hne
      have hcne : cur ≠ [] := by simpa [List.isEmpty_iff] using hne
      obtain rfl : acc ++ [cur] = segs := by
        simpa using h
      refine ⟨?_, ?_⟩
      · intro s hs
        rcases List.mem_append.mp hs with hs | hs
        · exact hacc s hs
        · simp only [List.mem_singleton] at hs
          exact hs ▸ ⟨hcne, hcur⟩
      · rw [List.append_nil, joinSegs_snoc]
  | cons t rest ih =>
    intro cur acc segs hacc hcur h
    simp only [splitAux] at h
    by_cases ht : t = "|"
    · rw [if_pos ht] at h
      split at h
      · exact absurd h (by simp)
      · split at h
        · exact absurd h (by simp)
        · split at h
          · exact absurd h (by simp)
          · rename_i hne _ _
            have hcne : cur ≠ [] := by simpa [List.isEmpty_iff] using hne
            have hacc' : ∀ s ∈ acc ++ [cur], s ≠ [] ∧ "|" ∉ s := by
              intro s hs
              rcases List.mem_append.mp hs with hs | hs
              · exact hacc s hs
              · simp only [List.mem_singleton] at hs
                exact hs ▸ ⟨hcne, hcur⟩
            obtain ⟨h1, h2⟩ := ih [] (acc ++ [cur]) segs hacc' (by simp) h
            refine ⟨h1, ?_⟩
            rw [h2, List.nil_append, preJoin_snoc, ht]
    · rw [if_neg ht] at h
      have hcur' : "|" ∉ cur ++ [t] := by
        simp only [List.mem_append, List.mem_singleton]
        rintro (hc | hc)
        · exact hcur hc
        · exact ht hc.symm
      obtain ⟨h1, h2⟩ := ih (cur ++ [t]) acc segs hacc hcur' h
      refine ⟨h1, ?_⟩
      rw [h2, List.append_assoc]
      rfl

/-- C8 (confirmed): whenever `split_pipeline` succeeds, every returned
segment is non-empty and contains no `|` token, and concatenating the
segments in order with one `|` between consecutive segments reproduces the
input token sequence exactly. -/
theorem c8_split_success (ts : List String) (segs : List (List String))
    (h : split_pipeline ts = .ok segs) :
    (∀ s ∈ segs, s ≠ [] ∧ "|" ∉ s) ∧ joinSegs segs = ts := by
  have := splitAux_ok_spec ts [] [] segs (by simp) (by simp) h
  simpa [preJoin] using this

/-- Witness for C8 on `a | b`: both segments non-empty and pipe-free, and
they reassemble to the input. -/
theorem c8_split_success_witness :
    joinSegs [["a"], ["b"]] = ["a", "|", "b"] ∧
    (["a"] ≠ [] ∧ "|" ∉ ["a"]) :=
  ⟨(c8_split_success ["a", "|", "b"] [["a"], ["b"]] (by decide)).2,
   (c8_split_success ["a", "|", "b"] [["a"], ["b"]] (by decide)).1 ["a"] (by decide)⟩

/-- C9 (confirmed): in every pipeline child the per-command redirections are
`dup2`ed after the pipe wiring, so whenever a command carries a file
redirection for a stream, that stream ends up bound to the file — the file
redirection overrides any pipe connection on the same stream, for every
stage position `i` of every pipeline length `n`. -/
theorem c9_redirection_overrides_pipe (i n fd : Nat) (c : Command) :
    (c.input_fd = some fd → (childWiring i n c).sIn = .file fd) ∧
    (c.output_fd = some fd → (childWiring i n c).sOut = .file fd) ∧
    (c.error_fd = some fd → (childWiring i n c).sErr = .file fd) := by
  refine ⟨fun h => ?_, fun h => ?_, fun h => ?_⟩
  · rcases hofd : c.output_fd with _ | v <;> rcases hefd : c.error_fd with _ | w <;>
      simp [childWiring, applyDup2, h, hofd, hefd]
  · rcases hifd : c.input_fd with _ | v <;> rcases hefd : c.error_fd with _ | w <;>
      simp [childWiring, applyDup2, h, hifd, hefd]
  · rcases hifd : c.input_fd with _ | v <;> rcases hofd : c.output_fd with _ | w <;>
      simp [childWiring, applyDup2, h, hifd, hofd]

/-- Witness for C9 at stage 1 of a 3-stage pipeline, with all three
redirections present (descriptor 5): every stream is bound to the file, not
to the pipes the stage is wired into. -/
theorem c9_redirection_overrides_pipe_witness :
    (childWiring 1 3 ⟨["x"], some 5, some 5, some 5⟩).sIn = .file 5 ∧
    (childWiring 1 3 ⟨["x"], some 5, some 5, some 5⟩).sOut = .file 5 ∧
    (childWiring 1 3 ⟨["x"], some 5, some 5, some 5⟩).sErr = .file 5 :=
  ⟨(c9_redirection_overrides_pipe 1 3 5 ⟨["x"], some 5, some 5, some 5⟩).1 rfl,
   (c9_redirection_overrides_pipe 1 3 5 ⟨["x"], some 5, some 5, some 5⟩).2.1 rfl,
   (c9_redirection_overrides_pipe 1 3 5 ⟨["x"], some 5, some 5, some 5⟩).2.2 rfl⟩

/-- On input without whitespace or quote characters, the token scan consumes
everything into the current token. -/
theorem scanToken_all : ∀ (l acc : List Char),
    (∀ c ∈ l, cSpace c = false ∧ c ≠ '"' ∧ c ≠ '\'') →
    scanToken l false ' ' acc = (acc.reverse ++ l, []) := by
  intro l
  induction l with
  | nil => intro acc _; simp [scanToken]
  | cons c rest ih =>
    intro acc h
    have hc := h c (List.mem_cons_self c rest)
    have hrest : ∀ x ∈ rest, cSpace x = false ∧ x ≠ '"' ∧ x ≠ '\'' :=
      fun x hx => h x (List.mem_cons_of_mem c hx)
    simp only [scanToken]
    rw [if_neg (by push_neg; exact ⟨hc.2.1, hc.2.2⟩)]
    rw [if_neg (by simp [hc.1])]
    rw [ih (c :: acc) hrest]
    simp

/-- The tokenizer loop yields nothing on empty input. -/
theorem tokLoop_nil : tokLoop [] = [] := by
  rw [tokLoop.eq_def]
  simp [List.dropWhile]

/-- C10 (confirmed): a token ends only at unquoted whitespace or end of
input, so operator characters embedded in a word are not split out: any
non-empty line containing no whitespace and no quote characters — such as
`a|b` or `a>b` — tokenizes to exactly one token, the whole line.  (The `>>`
merge, the one exception the claim notes, only runs after a token has been
closed by whitespace or end of input, so it cannot fire inside such a
line.) -/
theorem c10_unquoted_word_single_token (s : String) (h1 : s.data ≠ [])
    (h2 : ∀ c ∈ s.data, cSpace c = false ∧ c ≠ '"' ∧ c ≠ '\'') :
    parse_input s = [s] := by
  obtain ⟨c, rest, hcr⟩ : ∃ c rest, s.data = c :: rest := by
    cases hd : s.data with
    | nil => exact absurd hd h1
    | cons c rest => exact ⟨c, rest, rfl⟩
  have hcsp : cSpace c = false := (h2 c (by rw [hcr]; exact List.mem_cons_self c rest)).1
  have hdrop : s.data.dropWhile cSpace = c :: rest := by
    rw [hcr, List.dropWhile_cons, if_neg (by simp [hcsp])]
  have hscan : scanToken (c :: rest) false ' ' [] = (c :: rest, []) := by
    have := scanToken_all (c :: rest) [] (by rw [← hcr]; exact h2)
    simpa using this
  have hloop : tokLoop s.data = [c :: rest] := by
    rw [tokLoop.eq_def]
    split
    · rename_i heq
      rw [hdrop] at heq
      cases heq
    · rename_i c' rest' heq
      rw [hdrop] at heq
      injection heq with he1 he2
      subst he1
      subst he2
      simp [hscan, tokLoop_nil]
  unfold parse_input
  rw [hloop]
  simp only [List.map]
  rw [← hcr]

/-- Witness for C10 at the line `a|b`: one single token, not three. -/
theorem c10_unquoted_word_single_token_witness : parse_input "a|b" = ["a|b"] :=
  c10_unquoted_word_single_token "a|b" (by decide) (by decide)
